import Mathlib

/-!
Verification of the AlignAI project-relevance ranking and keyword-gap engine.

This file shallowly embeds the deterministic scoring core of the repository:
  * `src/src/latex_parser.py` — `extract_keywords_from_project`,
    `score_project_for_job`, `rank_projects_for_job`;
  * `src/src/utils.py` — `extract_keywords_from_text`,
    `_extract_technical_keywords`, `_simple_keyword_extraction`,
    `format_score`;
  * `src/app.py` — the missing-keyword block and the composite-score block of
    `analyze_resume_with_projects`;
  * `src/src/analyzer.py` — the missing-keyword block of
    `analyze_resume_latex_only`.

Modelling conventions:
  * Text is `List Char` (`Str`); Python's `str.lower` is an ASCII character map.
  * Python float arithmetic is modelled exactly over `ℚ`; `int(x)` is
    truncation toward zero (`pyInt`), `round(x)` is round-half-to-even
    (`pyRound`), `round(x, 1)` is `pyRound1`.
  * External libraries (NLTK tokenizer and lemmatizer, the NLTK English
    stopword table, scikit-learn's TF-IDF scores) are not repository code;
    they enter as an explicit environment (`NltkEnv`) whose calls may fail
    (`Option`), matching the `try/except` structure of the source.
  * A Python `set` iterates in an unspecified order.  Wherever the source
    converts a set back to a list (`list(set(...))`), the embedding takes the
    enumeration as an explicit parameter constrained to be a permutation of
    the canonical element list, so theorems quantify over every order the
    interpreter could produce.
-/

namespace AlignAI

/-- Text is modelled as a list of characters. -/
abbrev Str := List Char

/-- Coerce a Lean string literal to the character-list representation. -/
def str (s : String) : Str := s.data

/-- Python's `str.lower()` restricted to ASCII, as used by the repository. -/
def lowerStr (s : Str) : Str := s.map Char.toLower

/-- A `\w` word character of Python's `re` module (ASCII range). -/
def isWordChar (c : Char) : Bool := c.isAlphanum || c == '_'

/-- Test that `h` starts with the pattern `n` (`str.startswith`). -/
def strStartsWith : Str → Str → Bool
  | _, [] => true
  | [], _ :: _ => false
  | a :: h, b :: n => a == b && strStartsWith h n

/-- Python's substring test `n in h`.  Note `"" in h` is `True`. -/
def strContains : Str → Str → Bool
  | [], n => strStartsWith [] n
  | c :: t, n => strStartsWith (c :: t) n || strContains t n

/-- Maximal runs of characters satisfying `p`; separators are dropped.
Used for `re.findall(r'\b\w+\b', s)` and for `str.split()`. -/
def runsBy (p : Char → Bool) : Str → List Str
  | [] => []
  | c :: t =>
    let rest := runsBy p t
    if p c then
      match t, rest with
      | t0 :: _, r :: rs => if p t0 then (c :: r) :: rs else [c] :: (r :: rs)
      | t0 :: _, [] => if p t0 then [[c]] else [c] :: []
      | [], _ => [[c]]
    else rest

/-- Join parts with a single space (Python join on a space). -/
def joinSpace : List Str → Str
  | [] => []
  | [s] => s
  | s :: t :: rest => s ++ ' ' :: joinSpace (t :: rest)

/-- Python `str.isalpha()`: nonempty and every character alphabetic. -/
def isalphaStr (s : Str) : Bool := !s.isEmpty && s.all Char.isAlpha

/-- Deduplication keeping the FIRST occurrence of each element, the order a
Python `dict` / explicit `not in` loop produces. -/
def pyDedupAux {α : Type} [DecidableEq α] : List α → List α → List α
  | _, [] => []
  | seen, x :: t => if x ∈ seen then pyDedupAux seen t else x :: pyDedupAux (x :: seen) t

/-- First-occurrence deduplication of a list. -/
def pyDedup {α : Type} [DecidableEq α] (l : List α) : List α := pyDedupAux [] l

/-! ### Python numeric conversions over `ℚ` -/

/-- Python's `int(x)`: truncation toward zero. -/
def pyInt (q : ℚ) : ℤ := if 0 ≤ q then Rat.floor q else -(Rat.floor (-q))

/-- Python's `round(x)`: round half to even. -/
def pyRound (q : ℚ) : ℤ :=
  if q - Rat.floor q < 1 / 2 then Rat.floor q
  else if 1 / 2 < q - Rat.floor q then Rat.floor q + 1
  else if Rat.floor q % 2 = 0 then Rat.floor q else Rat.floor q + 1

/-- Python's `round(x, 1)`: round half to even at one decimal place. -/
def pyRound1 (q : ℚ) : ℚ := (pyRound (q * 10) : ℚ) / 10

/-- The `format_score` function of `src/src/utils.py` (numeric branch): clamp `int(score)`
to the integer interval `[0, 100]`. -/
def format_score (q : ℚ) : ℤ := max 0 (min 100 (pyInt q))

/-! ### Word-boundary matching for the fixed technical-term regexes

Each technical-term pattern in the source is an alternation of literal terms
wrapped in `\b...\b`.  A term matches iff it occurs somewhere in the text with
a `\b` boundary on each side (`\b` holds between a word character and a
non-word character, ends of the string counting as non-word).  Since the
matches are collected into a Python `set`, only this occurrence test matters. -/

/-- Word-character status of an optional character (`none` = outside text). -/
def wChar : Option Char → Bool
  | none => false
  | some c => isWordChar c

/-- The alternation matches at the current position: the text starts with the
literal term and both `\b` assertions hold. -/
def matchAt (t : Str) (prev : Option Char) (h : Str) : Bool :=
  strStartsWith h t && (wChar prev != wChar t.head?) &&
    (wChar t.getLast? != wChar (h.drop t.length).head?)

/-- Scan for a word-bounded occurrence, tracking the previous character. -/
def occursWBFrom (t : Str) : Option Char → Str → Bool
  | prev, [] => matchAt t prev []
  | prev, c :: rest => matchAt t prev (c :: rest) || occursWBFrom t (some c) rest

/-- The term `t` has a `\b`-bounded occurrence in `h`. -/
def occursWB (t h : Str) : Bool := occursWBFrom t none h

/-! ### Stable descending sort

Python's `list.sort(key=..., reverse=True)` is a stable sort: equal keys keep
their original relative order.  The extensional behaviour is that of
`List.insertionSort` with the relation `key b ≤ key a`. -/

/-- Stable sort by `key`, largest first (Python `sort(key=key, reverse=True)`). -/
def sortDesc {α : Type} (key : α → ℚ) (l : List α) : List α :=
  l.insertionSort (fun a b => key b ≤ key a)

/-! ### `src/src/latex_parser.py` — projects, keyword extraction, scoring -/

/-- The `ParsedProject` dataclass (src/src/latex_parser.py lines 13-21). -/
structure ParsedProject where
  name : Str
  tech_stack : List Str
  date_range : Str
  github_link : Option Str
  description_points : List Str
deriving DecidableEq

/-- Method `ParsedProject.get_full_description` (lines 34-36): description points
joined by a single space. -/
def get_full_description (p : ParsedProject) : Str := joinSpace p.description_points

/-- The alternatives of the nine `tech_patterns` regexes of
`extract_keywords_from_project` (src/src/latex_parser.py lines 252-262), in
pattern order.  Each pattern is `\b(?:...)\b` scanned over the lowercased
description, so a term is collected iff it has a word-bounded occurrence. -/
def latexTechTerms : List Str :=
  [str "python", str "java", str "javascript", str "typescript", str "c++",
   str "c#", str "go", str "rust", str "swift", str "kotlin",
   str "react", str "angular", str "vue", str "django", str "flask",
   str "spring", str "express", str "fastapi", str "streamlit",
   str "aws", str "azure", str "gcp", str "docker", str "kubernetes",
   str "jenkins", str "git", str "github",
   str "mysql", str "postgresql", str "mongodb", str "redis",
   str "elasticsearch", str "pinecone",
   str "tensorflow", str "pytorch", str "scikit-learn", str "pandas",
   str "numpy", str "langchain", str "ollama",
   str "html", str "css", str "sass", str "less", str "bootstrap",
   str "tailwind",
   str "node.js", str "npm", str "yarn", str "webpack", str "babel",
   str "linux", str "ubuntu", str "macos", str "windows", str "bash",
   str "shell",
   str "api", str "rest", str "graphql", str "microservices", str "rag",
   str "llm", str "ai", str "ml"]

/-- The set of technical terms with a word-bounded occurrence in `text`
(already lowercased), listed in the canonical pattern order.  The Python code
collects the same set via `re.findall` per pattern. -/
def techMatchesLatex (text : Str) : List Str :=
  latexTechTerms.filter (fun t => occursWB t text)

/-- Function `extract_keywords_from_project` (lines 241-268): the set of lowercased
tech-stack entries plus every technical term matched in the lowercased full
description.  The Python function returns `list(keywords)` for a `set`; the
embedding fixes one canonical enumeration — every claim about this function
only depends on membership and cardinality, which are enumeration-invariant. -/
def extract_keywords_from_project (p : ParsedProject) : List Str :=
  pyDedup (p.tech_stack.map lowerStr ++ techMatchesLatex (lowerStr (get_full_description p)))

/-- The scored-project record returned by `score_project_for_job`. -/
structure ScoredProject where
  project_name : Str
  overall_score : ℚ
  keyword_score : ℚ
  similarity_score : ℚ
  matched_keywords : List Str
  tech_stack : List Str
deriving DecidableEq

/-- Local `project_text` of `score_project_for_job` line 274:
`(project.name + " " + project.get_full_description()).lower()`. -/
def project_text (p : ParsedProject) : Str :=
  lowerStr (p.name ++ ' ' :: get_full_description p)

/-- Line 277: `sum(1 for keyword in project_keywords if keyword in job_desc_lower)`. -/
def keyword_matches (p : ParsedProject) (jd : Str) : ℕ :=
  (extract_keywords_from_project p).countP (fun k => strContains (lowerStr jd) k)

/-- Line 278: `min(100, (keyword_matches / max(len(project_keywords), 1)) * 100)`. -/
def keyword_score_raw (p : ParsedProject) (jd : Str) : ℚ :=
  min 100 (((keyword_matches p jd : ℚ) / (max (extract_keywords_from_project p).length 1 : ℕ)) * 100)

/-- Line 281: `job_words = set(re.findall(r'\b\w+\b', job_desc_lower))`. -/
def job_words (jd : Str) : List Str := pyDedup (runsBy isWordChar (lowerStr jd))

/-- Line 282: `project_words = set(re.findall(r'\b\w+\b', project_text))`. -/
def project_words (p : ParsedProject) : List Str := pyDedup (runsBy isWordChar (project_text p))

/-- Line 284: `common_words = job_words.intersection(project_words)`. -/
def common_words (p : ParsedProject) (jd : Str) : List Str :=
  (job_words jd).filter (fun w => decide (w ∈ project_words p))

/-- Line 285: `min(100, (len(common_words) / max(len(job_words), 1)) * 100)`. -/
def similarity_score_raw (p : ParsedProject) (jd : Str) : ℚ :=
  min 100 ((((common_words p jd).length : ℚ) / (max (job_words jd).length 1 : ℕ)) * 100)

/-- Function `score_project_for_job` (lines 270-297). -/
def score_project_for_job (p : ParsedProject) (jd : Str) : ScoredProject :=
  { project_name := p.name
    overall_score :=
      pyRound1 (keyword_score_raw p jd * (7 / 10) + similarity_score_raw p jd * (3 / 10))
    keyword_score := pyRound1 (keyword_score_raw p jd)
    similarity_score := pyRound1 (similarity_score_raw p jd)
    matched_keywords :=
      (extract_keywords_from_project p).filter (fun k => strContains (lowerStr jd) k)
    tech_stack := p.tech_stack }

/-- Function `rank_projects_for_job` (lines 299-310): score every project, stable-sort
by `overall_score` descending, take the first `top_k`. -/
def rank_projects_for_job (projects : List ParsedProject) (jd : Str) (top_k : ℕ) :
    List ScoredProject :=
  (sortDesc (fun x => x.overall_score)
    (projects.map (fun p => score_project_for_job p jd))).take top_k

/-! ### `src/src/utils.py` — text keyword extraction -/

/-- The `domain_stopwords` set literal of `extract_keywords_from_text`
(src/src/utils.py lines 64-71); `'experience'` appears twice in the source
literal, a set keeps one copy. -/
def domainStopwords : List Str :=
  [str "experience", str "work", str "job", str "role", str "position",
   str "team", str "company", str "project", str "projects", str "using",
   str "used", str "use", str "including", str "include", str "requirements",
   str "required", str "prefer", str "preferred", str "skills", str "skill",
   str "ability", str "knowledge", str "understanding", str "working",
   str "development", str "years", str "year", str "minimum", str "plus",
   str "strong", str "excellent", str "good", str "responsible",
   str "responsibilities", str "duties"]

/-- The alternatives of the nine `tech_patterns` regexes of
`_extract_technical_keywords` (src/src/utils.py lines 137-147), in pattern
order.  `node\.?js` can produce either matched text, so both variants are
listed. -/
def utilsTechTerms : List Str :=
  [str "python", str "java", str "javascript", str "typescript", str "c++",
   str "c#", str "go", str "rust", str "swift", str "kotlin", str "scala",
   str "ruby", str "php",
   str "react", str "angular", str "vue", str "django", str "flask",
   str "spring", str "express", str "fastapi", str "streamlit", str "nextjs",
   str "aws", str "azure", str "gcp", str "docker", str "kubernetes",
   str "jenkins", str "git", str "github", str "gitlab", str "terraform",
   str "mysql", str "postgresql", str "mongodb", str "redis",
   str "elasticsearch", str "pinecone", str "snowflake",
   str "tensorflow", str "pytorch", str "scikit-learn", str "pandas",
   str "numpy", str "langchain", str "ollama", str "openai",
   str "html", str "css", str "sass", str "bootstrap", str "tailwind",
   str "material-ui",
   str "node.js", str "nodejs", str "npm", str "yarn", str "webpack",
   str "babel", str "vite",
   str "linux", str "ubuntu", str "macos", str "windows", str "bash",
   str "shell",
   str "api", str "rest", str "graphql", str "microservices",
   str "serverless", str "rag", str "llm", str "ai", str "ml", str "nlp",
   str "devops", str "ci/cd"]

/-- The set of technical terms `_extract_technical_keywords` collects for
`text` (it lowercases internally), in canonical pattern order.  The Python
function returns `list(set(tech_keywords))` — an unspecified enumeration of
exactly this set. -/
def techMatchesUtils (text : Str) : List Str :=
  utilsTechTerms.filter (fun t => occursWB t (lowerStr text))

/-- An enumeration of the technical-keyword set that
`list(set(tech_keywords))` could produce: any permutation of the canonical
match list. -/
def AdmissibleTech (enum : List Str) (text : Str) : Prop :=
  (techMatchesUtils text).Perm enum

/-- Fallback `_simple_keyword_extraction` (lines 158-174): replace non-word,
non-whitespace characters by spaces, split on whitespace, keep alphabetic
words longer than 2, and return the `max_keywords` most frequent words
(`Counter.most_common` — count descending, ties in first-occurrence order). -/
def simple_keyword_extraction (text : Str) (mk : ℕ) : List Str :=
  let clean := (lowerStr text).map (fun c => if isWordChar c || c.isWhitespace then c else ' ')
  let words := runsBy (fun c => !c.isWhitespace) clean
  let filtered := words.filter (fun w => decide (2 < w.length) && isalphaStr w)
  let counted := (pyDedup filtered).map
    (fun w => (w, (filtered.countP (fun x => decide (x = w)) : ℚ)))
  ((sortDesc (fun pr => pr.2) counted).take mk).map (fun pr => pr.1)

/-- The external collaborators of `extract_keywords_from_text`: the NLTK
English stopword table, `nltk.word_tokenize`, `WordNetLemmatizer.lemmatize`
and scikit-learn's sorted TF-IDF `(term, score)` pairs.  They are libraries,
not repository code; each may fail (`none`), which the source's `try/except`
turns into the fallback path. -/
structure NltkEnv where
  stopwordsEnglish : Option (List Str)
  wordTokenize : Str → Option (List Str)
  lemmatize : Str → Option Str
  tfidfScores : Str → ℕ → Option (List (Str × ℚ))

/-- The second accumulation loop of `extract_keywords_from_text`
(lines 120-126): append each scored keyword not yet present with positive
score; stop once the accumulator has reached `max_keywords` entries (the
length test runs after each iteration, appended or not). -/
def fillLoop (mk : ℕ) : List Str → List (Str × ℚ) → List Str
  | res, [] => res
  | res, (k, s) :: rest =>
    let res' := if k ∉ res ∧ 0 < s then res ++ [k] else res
    if mk ≤ res'.length then res' else fillLoop mk res' rest

/-- Lines 113-128: technical keywords first (first loop deduplicates), then
scored keywords, then `result_keywords[:max_keywords]`. -/
def combineKeywords (techEnum : List Str) (sortedScores : List (Str × ℚ)) (mk : ℕ) :
    List Str :=
  (fillLoop mk (pyDedup techEnum) sortedScores).take mk

/-- The `try` block of `extract_keywords_from_text` (lines 59-128): stopword
table, tokenize, filter (alphabetic, length > 2, not a stopword), lemmatize,
short-circuit below 5 tokens, TF-IDF scoring sorted by score descending
(line 107, a stable Python sort), then the combination loops.  `none` models
an exception reaching the `except` handler. -/
def mainPath (env : NltkEnv) (techEnum : List Str) (text : Str) (mk : ℕ) :
    Option (List Str) :=
  match env.stopwordsEnglish with
  | none => none
  | some sw =>
    match env.wordTokenize (lowerStr text) with
    | none => none
    | some tokens =>
      let filtered := tokens.filter (fun t =>
        isalphaStr t && decide (2 < t.length) &&
          !(decide (t ∈ sw) || decide (t ∈ domainStopwords)))
      match filtered.mapM env.lemmatize with
      | none => none
      | some lemmatized =>
        if lemmatized.length < 5 then some lemmatized
        else
          match env.tfidfScores (joinSpace lemmatized) mk with
          | none => none
          | some scores =>
            some (combineKeywords techEnum (sortDesc (fun pr => pr.2) scores) mk)

/-- Function `extract_keywords_from_text` (lines 54-133): empty text short-circuits to
`[]`; otherwise the `try` block runs and any failure falls back to
`_simple_keyword_extraction`. -/
def extract_keywords_from_text (env : NltkEnv) (techEnum : List Str) (text : Str)
    (mk : ℕ) : List Str :=
  if text.isEmpty then []
  else
    match mainPath env techEnum text mk with
    | some r => r
    | none => simple_keyword_extraction text mk

/-! ### `src/app.py` and `src/src/analyzer.py` — gap analysis and composite score -/

/-- A missing-keyword record.  Both code paths also attach fixed prose fields
(`'category': 'Technical'`, and `analyzer.py` adds a constant `'context'`
string) — only the fields the claims mention are kept. -/
structure MissingKeyword where
  keyword : Str
  category : Str
  importance : Str
deriving DecidableEq

/-- The record constructor shared by both paths: importance is `'high'` iff
the keyword is among the first five extracted job keywords
(`kw in job_keywords[:5]`). -/
def mkMissing (jobKeywords : List Str) (kw : Str) : MissingKeyword :=
  { keyword := kw
    category := str "Technical"
    importance := if kw ∈ jobKeywords.take 5 then str "high" else str "medium" }

/-- All keywords extracted over the parsed projects (`project_keywords`
accumulated with `extend`, src/app.py lines 139-141). -/
def projectKeywordsAll (projects : List ParsedProject) : List Str :=
  projects.flatMap extract_keywords_from_project

/-- An enumeration `list(set(jobKeywords) - set(covered))` could produce: any
permutation of the distinct job keywords outside `covered`. -/
def AdmissibleDiff (jobKeywords covered enum : List Str) : Prop :=
  ((pyDedup jobKeywords).filter (fun k => decide (k ∉ covered))).Perm enum

/-- The missing-keyword block of `analyze_resume_with_projects`
(src/app.py lines 143-151): `list(set(job_keywords) - set(project_keywords))`
truncated to 10, in whatever order the set enumerates. -/
def app_missing_keywords (jobKeywords : List Str) (enum : List Str) :
    List MissingKeyword :=
  (enum.take 10).map (mkMissing jobKeywords)

/-- The missing-keyword block of `analyze_resume_latex_only`
(src/src/analyzer.py lines 288-298):
`[kw for kw in job_keywords if kw not in project_keywords][:15]`. -/
def analyzer_missing_keywords (jobKeywords covered : List Str) :
    List MissingKeyword :=
  ((jobKeywords.filter (fun k => decide (k ∉ covered))).take 15).map (mkMissing jobKeywords)

/-- The overall-score block of `analyze_resume_with_projects`
(src/app.py lines 201-218).  `rankedScores` are the `overall_score` values of
the ranked projects; `resumeScore` is `resume_analysis['overall_score']` when
present.  `int()` truncates; the resume score passes through `format_score`. -/
def combine_scores (rankedScores : List ℚ) (resumeScore : Option ℚ) : ℤ :=
  if rankedScores.isEmpty then
    match resumeScore with
    | some r => format_score r
    | none => 70
  else
    let top := rankedScores.take 3
    let avg : ℤ := pyInt (top.sum / (top.length : ℚ))
    match resumeScore with
    | some r => pyInt ((avg : ℚ) * (6 / 10) + (format_score r : ℚ) * (4 / 10))
    | none => avg

/-! ### Definitions following the spec's words, for comparison -/

/-- Modelled from the spec (§4.5): `project_avg = round(mean(top 3))`,
`overall = round(project_avg × 0.6 + resume_score × 0.4)` when a resume score
is present, else `project_avg`; empty input falls back to the resume score or
the fixed default 70. -/
def spec_combine (rankedScores : List ℚ) (resumeScore : Option ℚ) : ℤ :=
  if rankedScores.isEmpty then
    match resumeScore with
    | some r => pyRound r
    | none => 70
  else
    let top := rankedScores.take 3
    let avg : ℤ := pyRound (top.sum / (top.length : ℚ))
    match resumeScore with
    | some r => pyRound ((avg : ℚ) * (6 / 10) + r * (4 / 10))
    | none => avg

/-- The index of the first occurrence of `k` in a list (the claim's "its
index in the job-keyword list"). -/
def firstIdx (k : Str) : List Str → ℕ
  | [] => 0
  | x :: t => if x = k then 0 else firstIdx k t + 1

/-- Modelled from the spec (§4.4 / claim C5): missing keywords in
`job_keywords` order, truncated to `cap`, importance `'high'` iff the
keyword's index in the job-keyword list is below 5. -/
def spec_missing (jobKeywords covered : List Str) (cap : ℕ) : List MissingKeyword :=
  ((jobKeywords.filter (fun k => decide (k ∉ covered))).take cap).map (fun kw =>
    { keyword := kw
      category := str "Technical"
      importance := if firstIdx kw jobKeywords < 5 then str "high" else str "medium" })

/-- Modelled from the spec (claim C2): the exact, unrounded keyword score
`100 × matches / max(1, len(project_keywords))`. -/
def spec_keyword_score (p : ParsedProject) (jd : Str) : ℚ :=
  100 * (keyword_matches p jd : ℚ) / (max 1 (extract_keywords_from_project p).length : ℕ)

/-- Modelled from the spec (claim C2): the unique lowercase ALPHABETIC word
sets of the job description and of name + full description. -/
def spec_alpha_words (s : Str) : Finset Str :=
  (runsBy Char.isAlpha (lowerStr s)).toFinset

/-- Modelled from the spec (claim C2): similarity over alphabetic word sets,
`100 × |intersection| / max(1, |job_words|)`. -/
def spec_similarity_score (p : ParsedProject) (jd : Str) : ℚ :=
  100 * ((spec_alpha_words jd ∩ spec_alpha_words (p.name ++ ' ' :: get_full_description p)).card : ℚ) /
    (max 1 (spec_alpha_words jd).card : ℕ)

/-! ### Concrete fixtures used by witnesses and counterexamples -/

/-- Fixture: a concrete parsed project used by the C10 witness. -/
def witProjectC10 : ParsedProject :=
  { name := str "Chat Service", tech_stack := [str "Python", str "Redis"],
    date_range := str "2024", github_link := none,
    description_points := [str "Built a realtime chat service."] }

/-- Fixture: a concrete parsed project used by the C6 witness. -/
def witProjectC6 : ParsedProject :=
  { name := str "Search", tech_stack := [str "beta"], date_range := str "",
    github_link := none, description_points := [str "an index"] }

/-- Fixture: a parsed project whose tech stack contains the empty string
(reachable, e.g. from a tech-stack entry that is pure LaTeX markup). -/
def emptyTechProject : ParsedProject :=
  { name := str "", tech_stack := [[]], date_range := str "", github_link := none,
    description_points := [] }

/-- Fixture: a concrete parsed project with nonempty tech-stack entries. -/
def witProjectC9 : ParsedProject :=
  { name := str "demo", tech_stack := [str "Go"], date_range := str "",
    github_link := none, description_points := [str "a tiny tool"] }

/-- Fixture: the C2 counterexample project: three tech-stack keywords, one of
which appears in the job description. -/
def wwProject : ParsedProject :=
  { name := str "ww", tech_stack := [str "aaa", str "bbb", str "ccc"],
    date_range := str "", github_link := none, description_points := [str "aaa"] }

/-- Fixture: an NLTK environment in which every external call fails — the
situation the `except` branch of `extract_keywords_from_text` handles. -/
def envFail : NltkEnv :=
  { stopwordsEnglish := none, wordTokenize := fun _ => none,
    lemmatize := fun _ => none, tfidfScores := fun _ _ => none }

/-- Fixture: whitespace tokenization (a possible behaviour of the external
`word_tokenize` on simple text). -/
def ceTokenize (s : Str) : Option (List Str) := some (runsBy (fun c => !c.isWhitespace) s)

/-- Fixture: a concrete NLTK environment — empty English stopword table,
whitespace tokenizer, identity lemmatizer, empty TF-IDF score list. -/
def ceEnv : NltkEnv :=
  { stopwordsEnglish := some [], wordTokenize := ceTokenize,
    lemmatize := fun s => some s, tfidfScores := fun _ _ => some [] }

/-- Fixture: a six-token text whose technical matches are `python`, `docker`. -/
def ceText1 : Str := str "docker python alpha beta gamma delta"

/-! ### Helper lemmas -/

theorem mem_pyDedupAux {α : Type} [DecidableEq α] {x : α} :
    ∀ {seen l : List α}, x ∈ pyDedupAux seen l ↔ x ∈ l ∧ x ∉ seen := by
  intro seen l
  induction l generalizing seen with
  | nil => simp [pyDedupAux]
  | cons y t ih =>
    by_cases hy : y ∈ seen
    · simp only [pyDedupAux, if_pos hy, ih, List.mem_cons]
      by_cases hxy : x = y
      · subst hxy; simp [hy]
      · simp [hxy]
    · simp only [pyDedupAux, if_neg hy, List.mem_cons, ih]
      by_cases hxy : x = y
      · subst hxy; simp [hy]
      · simp [hxy]

theorem mem_pyDedup {α : Type} [DecidableEq α] {x : α} {l : List α} :
    x ∈ pyDedup l ↔ x ∈ l := by
  simp [pyDedup, mem_pyDedupAux]

theorem nodup_pyDedupAux {α : Type} [DecidableEq α] :
    ∀ (seen l : List α), (pyDedupAux seen l).Nodup := by
  intro seen l
  induction l generalizing seen with
  | nil => simp [pyDedupAux]
  | cons y t ih =>
    by_cases hy : y ∈ seen
    · simpa [pyDedupAux, if_pos hy] using ih seen
    · simp only [pyDedupAux, if_neg hy]
      refine List.nodup_cons.mpr ⟨?_, ih (y :: seen)⟩
      intro hc
      exact (mem_pyDedupAux.mp hc).2 (List.mem_cons_self _ _)

theorem nodup_pyDedup {α : Type} [DecidableEq α] (l : List α) : (pyDedup l).Nodup :=
  nodup_pyDedupAux [] l

theorem pyDedupAux_eq_self {α : Type} [DecidableEq α] :
    ∀ {seen l : List α}, l.Nodup → (∀ x ∈ l, x ∉ seen) → pyDedupAux seen l = l := by
  intro seen l hnd hout
  induction l generalizing seen with
  | nil => rfl
  | cons y t ih =>
    have hy : y ∉ seen := hout y (List.mem_cons_self _ _)
    rw [pyDedupAux, if_neg hy]
    congr 1
    refine ih (List.Nodup.of_cons hnd) ?_
    intro x hx
    intro hc
    rcases List.mem_cons.mp hc with h | h
    · exact (List.nodup_cons.mp hnd).1 (h ▸ hx)
    · exact hout x (List.mem_cons_of_mem _ hx) h

theorem pyDedup_eq_self {α : Type} [DecidableEq α] {l : List α} (h : l.Nodup) :
    pyDedup l = l :=
  pyDedupAux_eq_self h (by intro x _ hc; simp at hc)

theorem pyDedup_toFinset {α : Type} [DecidableEq α] (l : List α) :
    (pyDedup l).toFinset = l.toFinset := by
  ext x
  simp [mem_pyDedup]

theorem pyDedup_length_eq_card {α : Type} [DecidableEq α] (l : List α) :
    (pyDedup l).length = l.toFinset.card := by
  rw [← pyDedup_toFinset, List.toFinset_card_of_nodup (nodup_pyDedup l)]

/-- Identification of `Rat.floor` with the `⌊·⌋` of the `FloorRing` instance on `ℚ`; the former
evaluates inside the kernel, so the executable definitions use it. -/
theorem ratFloor_eq (q : ℚ) : Rat.floor q = ⌊q⌋ := rfl

theorem pyInt_eq_floor {q : ℚ} (h : 0 ≤ q) : pyInt q = ⌊q⌋ := by
  rw [pyInt, if_pos h, ratFloor_eq]

theorem pyRound_nonneg {q : ℚ} (h : 0 ≤ q) : 0 ≤ pyRound q := by
  have hf : (0 : ℤ) ≤ ⌊q⌋ := Int.floor_nonneg.mpr h
  unfold pyRound
  rw [ratFloor_eq]
  split
  · exact hf
  · split
    · omega
    · split
      · exact hf
      · omega

theorem pyRound_le {q : ℚ} {n : ℤ} (h : q ≤ (n : ℚ)) : pyRound q ≤ n := by
  have hf : ⌊q⌋ ≤ n := by
    have := Int.floor_le_floor h
    simpa using this
  unfold pyRound
  rw [ratFloor_eq]
  split
  · exact hf
  · rename_i h1
    have hq : ⌊q⌋ < n := by
      rcases lt_or_eq_of_le hf with h' | h'
      · exact h'
      · exfalso
        have hqn : q = (n : ℚ) := le_antisymm h (by rw [← h']; exact_mod_cast Int.floor_le q)
        have hz : q - ⌊q⌋ = 0 := by
          rw [hqn, ← h']
          simp
        rw [hz] at h1
        norm_num at h1
    split
    · omega
    · split
      · omega
      · omega

theorem pyRound_eq_of_lt {q : ℚ} {f : ℤ} (hf : ⌊q⌋ = f) (h : q - (f : ℚ) < 1 / 2) :
    pyRound q = f := by
  unfold pyRound
  rw [ratFloor_eq, hf, if_pos h]

theorem pyRound_eq_of_gt {q : ℚ} {f : ℤ} (hf : ⌊q⌋ = f) (h : 1 / 2 < q - (f : ℚ)) :
    pyRound q = f + 1 := by
  unfold pyRound
  rw [ratFloor_eq, hf, if_neg (by linarith), if_pos h]

theorem pyInt_eval {q : ℚ} {f : ℤ} (h0 : 0 ≤ q) (hf : ⌊q⌋ = f) : pyInt q = f := by
  rw [pyInt_eq_floor h0, hf]

theorem pyRound_zero : pyRound 0 = 0 :=
  pyRound_eq_of_lt (by norm_num) (by norm_num)

theorem pyRound1_zero : pyRound1 0 = 0 := by
  rw [pyRound1, show ((0 : ℚ) * 10) = 0 by ring, pyRound_zero]
  simp

theorem pyRound1_nonneg {q : ℚ} (h : 0 ≤ q) : 0 ≤ pyRound1 q := by
  unfold pyRound1
  have h' : (0 : ℤ) ≤ pyRound (q * 10) := pyRound_nonneg (by positivity)
  have : (0 : ℚ) ≤ (pyRound (q * 10) : ℚ) := by exact_mod_cast h'
  positivity

theorem pyRound1_le_100 {q : ℚ} (h : q ≤ 100) : pyRound1 q ≤ 100 := by
  unfold pyRound1
  have h10 : q * 10 ≤ ((1000 : ℤ) : ℚ) := by push_cast; linarith
  have h' : pyRound (q * 10) ≤ 1000 := pyRound_le h10
  rw [div_le_iff₀ (by norm_num : (0:ℚ) < 10)]
  calc ((pyRound (q * 10) : ℚ)) ≤ (1000 : ℚ) := by exact_mod_cast h'
    _ = 100 * 10 := by norm_num

theorem sortDesc_length {α : Type} (key : α → ℚ) (l : List α) :
    (sortDesc key l).length = l.length :=
  List.length_insertionSort _ l

theorem sortDesc_sorted {α : Type} (key : α → ℚ) (l : List α) :
    (sortDesc key l).Pairwise (fun a b => key b ≤ key a) := by
  haveI : IsTotal α (fun a b => key b ≤ key a) := ⟨fun a b => le_total (key b) (key a)⟩
  haveI : IsTrans α (fun a b => key b ≤ key a) :=
    ⟨fun _ _ _ h1 h2 => le_trans h2 h1⟩
  exact List.sorted_insertionSort _ l

theorem filter_orderedInsert_key {α : Type} (key : α → ℚ) (s : ℚ) (x : α) :
    ∀ {L : List α}, L.Pairwise (fun a b => key b ≤ key a) →
    (L.orderedInsert (fun a b => key b ≤ key a) x).filter (fun a => decide (key a = s)) =
      if key x = s then x :: L.filter (fun a => decide (key a = s))
      else L.filter (fun a => decide (key a = s)) := by
  intro L hL
  induction L with
  | nil =>
    simp only [List.orderedInsert, List.filter]
    by_cases hx : key x = s <;> simp [hx]
  | cons b M ih =>
    by_cases hbx : key b ≤ key x
    · simp only [List.orderedInsert, if_pos hbx, List.filter]
      by_cases hx : key x = s <;> simp [hx]
    · simp only [List.orderedInsert, if_neg hbx, List.filter_cons]
      rw [ih (List.Pairwise.of_cons hL)]
      have hlt : key x < key b := lt_of_not_le hbx
      by_cases hx : key x = s
      · have hb : ¬ (key b = s) := by
          intro hb
          rw [hx] at hlt
          rw [hb] at hlt
          exact lt_irrefl s hlt
        simp only [if_pos hx, hb, decide_eq_true_eq, if_neg hb]
        simp [hb]
      · by_cases hb : key b = s <;> simp [hx, hb]

theorem filter_insertionSort_key {α : Type} (key : α → ℚ) (s : ℚ) :
    ∀ (l : List α),
    (sortDesc key l).filter (fun a => decide (key a = s)) =
      l.filter (fun a => decide (key a = s)) := by
  intro l
  unfold sortDesc
  induction l with
  | nil => rfl
  | cons x t ih =>
    have hs := sortDesc_sorted key t
    unfold sortDesc at hs
    simp only [List.insertionSort]
    rw [filter_orderedInsert_key key s x hs]
    rw [ih, List.filter_cons]
    by_cases hx : key x = s <;> simp [hx]

theorem pyRound1_eval {q : ℚ} {f : ℤ} (hf : ⌊q * 10⌋ = f) (h : q * 10 - (f : ℚ) < 1 / 2) :
    pyRound1 q = (f : ℚ) / 10 := by
  rw [pyRound1, pyRound_eq_of_lt hf h]

theorem format_score_eval {q : ℚ} {f : ℤ} (h0 : 0 ≤ q) (hf : ⌊q⌋ = f)
    (h1 : 0 ≤ f) (h2 : f ≤ 100) : format_score q = f := by
  rw [format_score, pyInt_eq_floor h0, hf]
  omega

theorem format_score_eq_floor {q : ℚ} (h0 : 0 ≤ q) (h1 : q ≤ 100) :
    format_score q = ⌊q⌋ :=
  format_score_eval h0 rfl (Int.floor_nonneg.mpr h0)
    (by
      have := Int.floor_le_floor h1
      simpa using this)

theorem keyword_score_raw_nonneg (p : ParsedProject) (jd : Str) :
    0 ≤ keyword_score_raw p jd := by
  unfold keyword_score_raw
  refine le_min (by norm_num) ?_
  positivity

theorem keyword_score_raw_le_100 (p : ParsedProject) (jd : Str) :
    keyword_score_raw p jd ≤ 100 :=
  min_le_left _ _

theorem similarity_score_raw_nonneg (p : ParsedProject) (jd : Str) :
    0 ≤ similarity_score_raw p jd := by
  unfold similarity_score_raw
  refine le_min (by norm_num) ?_
  positivity

theorem similarity_score_raw_le_100 (p : ParsedProject) (jd : Str) :
    similarity_score_raw p jd ≤ 100 :=
  min_le_left _ _

theorem latexTechTerms_ne_nil : ∀ t ∈ latexTechTerms, t ≠ [] := by decide

theorem utilsTechTerms_nodup : utilsTechTerms.Nodup := by decide

theorem strContains_nil_of_ne {k : Str} (h : k ≠ []) : strContains [] k = false := by
  cases k with
  | nil => exact absurd rfl h
  | cons c t => rfl

theorem mem_take_iff_firstIdx_lt {k : Str} :
    ∀ {l : List Str}, k ∈ l → ∀ (n : ℕ), (k ∈ l.take n ↔ firstIdx k l < n) := by
  intro l hk
  induction l with
  | nil => cases hk
  | cons x t ih =>
    intro n
    by_cases hkx : x = k
    · subst hkx
      rw [firstIdx, if_pos rfl]
      cases n with
      | zero => simp
      | succ m => simp
    · rw [firstIdx, if_neg hkx]
      have hkt : k ∈ t := by
        rcases List.mem_cons.mp hk with h | h
        · exact absurd h.symm hkx
        · exact h
      cases n with
      | zero => simp
      | succ m =>
        rw [List.take_succ_cons, List.mem_cons]
        have hxk : ¬ (k = x) := fun h => hkx h.symm
        simp only [hxk, false_or]
        rw [ih hkt m]
        omega

/-- The length of `job_words.intersection(project_words)` is the cardinality
of the intersection of the underlying token sets. -/
theorem filter_mem_length_eq_inter_card (l m : List Str) :
    ((pyDedup l).filter (fun w => decide (w ∈ pyDedup m))).length =
      (l.toFinset ∩ m.toFinset).card := by
  have hnd : ((pyDedup l).filter (fun w => decide (w ∈ pyDedup m))).Nodup :=
    List.Nodup.filter _ (nodup_pyDedup l)
  rw [← List.toFinset_card_of_nodup hnd]
  congr 1
  ext x
  simp only [List.mem_toFinset, List.mem_filter, mem_pyDedup, Finset.mem_inter,
    decide_eq_true_eq]

/-- The invariant of the second accumulation loop: it only appends, appended
entries come from the positively-scored pairs in order, and no duplicate is
introduced. -/
theorem fillLoop_spec (mk : ℕ) :
    ∀ (scores : List (Str × ℚ)) (res : List Str),
    ∃ ex, fillLoop mk res scores = res ++ ex
      ∧ List.Sublist ex ((scores.filter (fun pr => decide (0 < pr.2))).map Prod.fst)
      ∧ (res.Nodup → (res ++ ex).Nodup) := by
  intro scores
  induction scores with
  | nil =>
    intro res
    exact ⟨[], by simp [fillLoop], List.nil_sublist _, by simp⟩
  | cons ks rest ih =>
    intro res
    obtain ⟨k, s⟩ := ks
    by_cases hks : k ∉ res ∧ 0 < s
    · have hres' : (if k ∉ res ∧ 0 < s then res ++ [k] else res) = res ++ [k] := if_pos hks
      have hnodup' : res.Nodup → (res ++ [k]).Nodup := by
        intro hnd
        refine List.Nodup.append hnd (List.nodup_singleton k) ?_
        intro a ha hb
        rw [List.mem_singleton] at hb
        exact hks.1 (hb ▸ ha)
      have hfilter : ((k, s) :: rest).filter (fun pr => decide (0 < pr.2)) =
          (k, s) :: rest.filter (fun pr => decide (0 < pr.2)) := by
        rw [List.filter_cons, if_pos (by simpa using hks.2)]
      by_cases hlen : mk ≤ (res ++ [k]).length
      · refine ⟨[k], ?_, ?_, hnodup'⟩
        · rw [fillLoop, hres', if_pos hlen]
        · rw [hfilter, List.map_cons]
          exact List.Sublist.cons₂ k (List.nil_sublist _)
      · obtain ⟨ex', heq', hsub', hnd'⟩ := ih (res ++ [k])
        refine ⟨k :: ex', ?_, ?_, ?_⟩
        · rw [fillLoop, hres', if_neg hlen, heq', List.append_assoc]
          rfl
        · rw [hfilter, List.map_cons]
          exact List.Sublist.cons₂ k hsub'
        · intro hnd
          have := hnd' (hnodup' hnd)
          rwa [List.append_assoc] at this
    · have hres' : (if k ∉ res ∧ 0 < s then res ++ [k] else res) = res := if_neg hks
      by_cases hlen : mk ≤ res.length
      · refine ⟨[], ?_, List.nil_sublist _, by simp⟩
        rw [fillLoop, hres', if_pos hlen, List.append_nil]
      · obtain ⟨ex', heq', hsub', hnd'⟩ := ih res
        refine ⟨ex', ?_, ?_, hnd'⟩
        · rw [fillLoop, hres', if_neg hlen, heq']
        · refine List.Sublist.trans hsub' ?_
          rw [List.filter_cons]
          by_cases h0 : (0 : ℚ) < s
          · rw [if_pos (by simpa using h0), List.map_cons]
            exact List.Sublist.cons _ (List.Sublist.refl _)
          · rw [if_neg (by simpa using h0)]

theorem runsBy_nil (p : Char → Bool) : runsBy p [] = [] := rfl

theorem simple_keyword_extraction_nil (mk : ℕ) :
    simple_keyword_extraction [] mk = [] := by
  simp [simple_keyword_extraction, lowerStr, runsBy_nil, pyDedup, pyDedupAux, sortDesc,
    List.insertionSort]

/-! ### Claim theorems -/

/-- C3: for every (project, job_description) pair, the keyword score, the
similarity score and the overall score returned by `score_project_for_job`
all lie in the closed interval [0, 100]. -/
theorem C3_score_bounds (p : ParsedProject) (jd : Str) :
    0 ≤ (score_project_for_job p jd).keyword_score ∧
    (score_project_for_job p jd).keyword_score ≤ 100 ∧
    0 ≤ (score_project_for_job p jd).similarity_score ∧
    (score_project_for_job p jd).similarity_score ≤ 100 ∧
    0 ≤ (score_project_for_job p jd).overall_score ∧
    (score_project_for_job p jd).overall_score ≤ 100 := by
  have hk0 := keyword_score_raw_nonneg p jd
  have hk1 := keyword_score_raw_le_100 p jd
  have hs0 := similarity_score_raw_nonneg p jd
  have hs1 := similarity_score_raw_le_100 p jd
  refine ⟨pyRound1_nonneg hk0, pyRound1_le_100 hk1, pyRound1_nonneg hs0,
    pyRound1_le_100 hs1, pyRound1_nonneg (by positivity), pyRound1_le_100 (by linarith)⟩

/-- C10: every tech-stack entry, lowercased, is a member of the project's
extracted keyword list, whether or not it occurs in the description text or
matches any technical-term pattern. -/
theorem C10_tech_stack_in_keywords (p : ParsedProject) (t : Str)
    (h : t ∈ p.tech_stack) : lowerStr t ∈ extract_keywords_from_project p := by
  unfold extract_keywords_from_project
  exact mem_pyDedup.mpr (List.mem_append_left _ (List.mem_map_of_mem lowerStr h))

/-- Witness for C10 at a concrete project and entry. -/
theorem C10_tech_stack_witness :
    lowerStr (str "Redis") ∈ extract_keywords_from_project witProjectC10 :=
  C10_tech_stack_in_keywords witProjectC10 (str "Redis") (by decide)

/-- C6: keyword-set invariants.  (1) Every element of `matched_keywords` is
one of that project's extracted keywords.  (2) In the `app.py` analysis run,
no reported missing keyword belongs to any parsed project's extracted keyword
set, for every enumeration the set difference can produce.  (3) The same for
the `analyzer.py` run. -/
theorem C6_keyword_set_invariants :
    (∀ (p : ParsedProject) (jd : Str) (k : Str),
      k ∈ (score_project_for_job p jd).matched_keywords →
      k ∈ extract_keywords_from_project p)
    ∧ (∀ (jobKeywords : List Str) (projects : List ParsedProject) (enum : List Str),
      AdmissibleDiff jobKeywords (projectKeywordsAll projects) enum →
      ∀ m ∈ app_missing_keywords jobKeywords enum, ∀ p ∈ projects,
        m.keyword ∉ extract_keywords_from_project p)
    ∧ (∀ (jobKeywords : List Str) (projects : List ParsedProject),
      ∀ m ∈ analyzer_missing_keywords jobKeywords (projectKeywordsAll projects),
        ∀ p ∈ projects, m.keyword ∉ extract_keywords_from_project p) := by
  refine ⟨?_, ?_, ?_⟩
  · intro p jd k hk
    exact (List.mem_filter.mp hk).1
  · intro jobKeywords projects enum hadm m hm p hp hmem
    obtain ⟨kw, hkw, rfl⟩ := List.mem_map.mp hm
    have hkenum : kw ∈ enum := List.mem_of_mem_take hkw
    have hkfil : kw ∈ (pyDedup jobKeywords).filter
        (fun k => decide (k ∉ projectKeywordsAll projects)) :=
      hadm.mem_iff.mpr hkenum
    have hnot : kw ∉ projectKeywordsAll projects := by
      have := (List.mem_filter.mp hkfil).2
      simpa using this
    exact hnot (List.mem_flatMap.mpr ⟨p, hp, hmem⟩)
  · intro jobKeywords projects m hm p hp hmem
    obtain ⟨kw, hkw, rfl⟩ := List.mem_map.mp hm
    have hkfil : kw ∈ jobKeywords.filter
        (fun k => decide (k ∉ projectKeywordsAll projects)) :=
      List.mem_of_mem_take hkw
    have hnot : kw ∉ projectKeywordsAll projects := by
      have := (List.mem_filter.mp hkfil).2
      simpa using this
    exact hnot (List.mem_flatMap.mpr ⟨p, hp, hmem⟩)

/-- Witness for C6 at concrete inputs: a matched keyword is an extracted
keyword, and a reported missing keyword avoids the project's keywords. -/
theorem C6_keyword_set_witness :
    str "beta" ∈ extract_keywords_from_project witProjectC6 ∧
    str "alpha" ∉ extract_keywords_from_project witProjectC6 := by
  constructor
  · exact C6_keyword_set_invariants.1 witProjectC6 (str "a beta tool") (str "beta")
      (by decide)
  · refine C6_keyword_set_invariants.2.1 [str "alpha"] [witProjectC6] [str "alpha"]
      ?_ (mkMissing [str "alpha"] (str "alpha")) (by decide) witProjectC6 (by decide)
    show ((pyDedup [str "alpha"]).filter _).Perm [str "alpha"]
    have : ((pyDedup [str "alpha"]).filter
        (fun k => decide (k ∉ projectKeywordsAll [witProjectC6]))) = [str "alpha"] := by
      decide
    rw [this]

/-- C4: `rank_projects_for_job` returns exactly `min(top_k, len(projects))`
entries (empty for `top_k = 0`), sorted by `overall_score` descending, and —
stability — for every score value the retained entries with that score are an
initial segment, in order, of the scored projects in input order (no
secondary key). -/
theorem C4_rank_contract (projects : List ParsedProject) (jd : Str) (k : ℕ) :
    (rank_projects_for_job projects jd k).length = min k projects.length
    ∧ rank_projects_for_job projects jd 0 = []
    ∧ (rank_projects_for_job projects jd k).Pairwise
        (fun a b => b.overall_score ≤ a.overall_score)
    ∧ ∀ s : ℚ, ∃ rest,
        (projects.map (fun p => score_project_for_job p jd)).filter
            (fun x => decide (x.overall_score = s)) =
          (rank_projects_for_job projects jd k).filter
            (fun x => decide (x.overall_score = s)) ++ rest := by
  refine ⟨?_, ?_, ?_, ?_⟩
  · rw [rank_projects_for_job, List.length_take, sortDesc_length, List.length_map]
  · rw [rank_projects_for_job, List.take_zero]
  · exact List.Pairwise.sublist (List.take_sublist _ _)
      (sortDesc_sorted (fun x : ScoredProject => x.overall_score) _)
  · intro s
    refine ⟨((sortDesc (fun x : ScoredProject => x.overall_score)
        (projects.map (fun p => score_project_for_job p jd))).drop k).filter
        (fun x : ScoredProject => decide (x.overall_score = s)), ?_⟩
    have hfil := filter_insertionSort_key (fun x : ScoredProject => x.overall_score) s
      (projects.map (fun p => score_project_for_job p jd))
    rw [rank_projects_for_job, ← List.filter_append, List.take_append_drop, hfil]

theorem take3_mean_nonneg {ranked : List ℚ} (hpos : ∀ x ∈ ranked, 0 ≤ x) :
    0 ≤ (ranked.take 3).sum / ((ranked.take 3).length : ℚ) := by
  refine div_nonneg (List.sum_nonneg ?_) (by positivity)
  intro x hx
  exact hpos x (List.mem_of_mem_take hx)

theorem combine_scores_some_eq_floor (ranked : List ℚ) (rs : ℚ) (hne : ranked ≠ [])
    (hpos : ∀ x ∈ ranked, 0 ≤ x) (h0 : 0 ≤ rs) (h1 : rs ≤ 100) :
    combine_scores ranked (some rs) =
      ⌊((3 * ⌊(ranked.take 3).sum / ((ranked.take 3).length : ℚ)⌋ + 2 * ⌊rs⌋ : ℤ) : ℚ) / 5⌋ := by
  have hemp : ranked.isEmpty = false := by
    simpa [List.isEmpty_iff] using hne
  have hm0 := take3_mean_nonneg hpos
  have havg : pyInt ((ranked.take 3).sum / ((ranked.take 3).length : ℚ)) =
      ⌊(ranked.take 3).sum / ((ranked.take 3).length : ℚ)⌋ := pyInt_eq_floor hm0
  have hfs : format_score rs = ⌊rs⌋ := format_score_eq_floor h0 h1
  have hfl0 : (0 : ℚ) ≤ (⌊(ranked.take 3).sum / ((ranked.take 3).length : ℚ)⌋ : ℚ) := by
    exact_mod_cast Int.floor_nonneg.mpr hm0
  have hrs0 : (0 : ℚ) ≤ (⌊rs⌋ : ℚ) := by
    exact_mod_cast Int.floor_nonneg.mpr h0
  simp only [combine_scores, hemp, Bool.false_eq_true, if_false, havg, hfs]
  rw [pyInt_eq_floor (add_nonneg (mul_nonneg hfl0 (by norm_num))
    (mul_nonneg hrs0 (by norm_num)))]
  congr 1
  push_cast
  ring

theorem combine_scores_none_eq_floor (ranked : List ℚ) (hne : ranked ≠ [])
    (hpos : ∀ x ∈ ranked, 0 ≤ x) :
    combine_scores ranked none =
      ⌊(ranked.take 3).sum / ((ranked.take 3).length : ℚ)⌋ := by
  have hemp : ranked.isEmpty = false := by
    simpa [List.isEmpty_iff] using hne
  simp only [combine_scores, hemp, Bool.false_eq_true, if_false]
  exact pyInt_eq_floor (take3_mean_nonneg hpos)

/-- C1 counterexample: the code truncates with `int()` where the claim says
`round`.  With one ranked project of score 75 and a resume score of 74 the
code computes `int(75·0.6 + 74·0.4) = int(74.6) = 74`, while the claim's
formula gives `round(74.6) = 75`. -/
theorem C1_composite_counterexample :
    combine_scores [75] (some 74) = 74 ∧ spec_combine [75] (some 74) = 75 ∧
    (74 : ℤ) ≠ 75 := by
  refine ⟨?_, ?_, by decide⟩
  · rw [combine_scores_some_eq_floor [75] 74 (by simp)
      (by intro x hx; simp at hx; simp [hx]) (by norm_num) (by norm_num)]
    norm_num [List.take]
  · show spec_combine [75] (some 74) = 75
    simp only [spec_combine, List.isEmpty_cons, Bool.false_eq_true, if_false]
    have h75 : pyRound ((([75] : List ℚ).take 3).sum / ((([75] : List ℚ).take 3).length : ℚ)) = 75 := by
      refine pyRound_eq_of_lt ?_ ?_ <;> norm_num [List.take]
    rw [h75]
    have : ((75 : ℤ) : ℚ) * (6 / 10) + (74 : ℚ) * (4 / 10) = 373 / 5 := by norm_num
    rw [this, @pyRound_eq_of_gt (373 / 5) 74 (by norm_num) (by norm_num)]
    decide

/-- C1 (amended): the composite scorer truncates rather than rounds.  For a
non-empty ranked list of nonnegative scores, with a resume score `rs ∈ [0,100]`
the overall score is `⌊(3·⌊mean of top 3⌋ + 2·⌊rs⌋)/5⌋` (the `int()` of
`project_avg·0.6 + resume_score·0.4` with `project_avg = int(mean)`); without
a resume score it is `⌊mean of top 3⌋`; and the claim's example still holds:
`combine([90,80,70], 60) = 72`. -/
theorem C1_composite_amended :
    (∀ (ranked : List ℚ) (rs : ℚ), ranked ≠ [] → (∀ x ∈ ranked, 0 ≤ x) →
      0 ≤ rs → rs ≤ 100 →
      combine_scores ranked (some rs) =
        ⌊((3 * ⌊(ranked.take 3).sum / ((ranked.take 3).length : ℚ)⌋ + 2 * ⌊rs⌋ : ℤ) : ℚ) / 5⌋)
    ∧ (∀ (ranked : List ℚ), ranked ≠ [] → (∀ x ∈ ranked, 0 ≤ x) →
      combine_scores ranked none =
        ⌊(ranked.take 3).sum / ((ranked.take 3).length : ℚ)⌋)
    ∧ combine_scores [90, 80, 70] (some 60) = 72 := by
  refine ⟨combine_scores_some_eq_floor, combine_scores_none_eq_floor, ?_⟩
  rw [combine_scores_some_eq_floor [90, 80, 70] 60 (by simp)
    (by intro x hx; simp at hx; rcases hx with rfl | rfl | rfl <;> norm_num)
    (by norm_num) (by norm_num)]
  norm_num [List.take]

/-- Witness for C1 at the claim's own example. -/
theorem C1_composite_witness :
    combine_scores [90, 80, 70] (some 60) =
      ⌊((3 * ⌊(([90, 80, 70] : List ℚ).take 3).sum / ((([90, 80, 70] : List ℚ).take 3).length : ℚ)⌋ +
          2 * ⌊(60 : ℚ)⌋ : ℤ) : ℚ) / 5⌋ :=
  C1_composite_amended.1 [90, 80, 70] 60 (by simp)
    (by intro x hx; simp at hx; rcases hx with rfl | rfl | rfl <;> norm_num)
    (by norm_num) (by norm_num)

/-- C9 counterexample: `score(project, "")` is NOT all-zero for every project.
Python's `"" in ""` is `True`, so a project whose extracted keyword set
contains the empty string (empty tech-stack entry) gets `keyword_score = 100`
against the empty job description. -/
theorem C9_empty_input_counterexample :
    (score_project_for_job emptyTechProject []).keyword_score = 100 ∧
    (100 : ℚ) ≠ 0 := by
  constructor
  · have h1 : keyword_matches emptyTechProject [] = 1 := by decide
    have h2 : (extract_keywords_from_project emptyTechProject).length = 1 := by decide
    have hraw : keyword_score_raw emptyTechProject [] = 100 := by
      rw [keyword_score_raw, h1, h2]
      norm_num
    show pyRound1 (keyword_score_raw emptyTechProject []) = 100
    rw [hraw, @pyRound1_eval 100 1000 (by norm_num) (by norm_num)]
    norm_num
  · norm_num

theorem extract_keywords_ne_nil {p : ParsedProject}
    (htech : ∀ t ∈ p.tech_stack, t ≠ []) :
    ∀ k ∈ extract_keywords_from_project p, k ≠ [] := by
  intro k hk
  rw [extract_keywords_from_project] at hk
  rcases List.mem_append.mp (mem_pyDedup.mp hk) with h | h
  · obtain ⟨t, ht, rfl⟩ := List.mem_map.mp h
    intro hc
    exact htech t ht (by simpa [lowerStr] using hc)
  · exact latexTechTerms_ne_nil k (List.mem_filter.mp h).1

/-- C9 (amended): `extract("")` returns `[]`; `combine([], None)` returns the
fixed default 70 and `combine([], 85)` returns 85; and `score(project, "")`
returns all-zero scores for every project NONE of whose tech-stack entries is
the empty string (an empty entry makes its keyword an empty string, which
Python counts as a substring of the empty job description). -/
theorem C9_empty_input_amended :
    (∀ (env : NltkEnv) (techEnum : List Str) (mk : ℕ),
      extract_keywords_from_text env techEnum [] mk = [])
    ∧ (∀ p : ParsedProject, (∀ t ∈ p.tech_stack, t ≠ []) →
      (score_project_for_job p []).keyword_score = 0 ∧
      (score_project_for_job p []).similarity_score = 0 ∧
      (score_project_for_job p []).overall_score = 0 ∧
      (score_project_for_job p []).matched_keywords = [])
    ∧ combine_scores [] none = 70
    ∧ combine_scores [] (some 85) = 85 := by
  refine ⟨fun _ _ _ => rfl, ?_, rfl, ?_⟩
  · intro p htech
    have hkeys := extract_keywords_ne_nil htech
    have hmatch : keyword_matches p [] = 0 := by
      rw [keyword_matches]
      refine List.countP_eq_zero.mpr ?_
      intro k hk
      have : strContains (lowerStr []) k = false := strContains_nil_of_ne (hkeys k hk)
      simpa using this
    have hraw : keyword_score_raw p [] = 0 := by
      rw [keyword_score_raw, hmatch]
      norm_num
    have hjl : (job_words ([] : Str)).length = 0 := rfl
    have hcl : (common_words p ([] : Str)).length = 0 := rfl
    have hsim : similarity_score_raw p [] = 0 := by
      rw [similarity_score_raw, hjl, hcl]
      norm_num
    refine ⟨?_, ?_, ?_, ?_⟩
    · show pyRound1 (keyword_score_raw p []) = 0
      rw [hraw, pyRound1_zero]
    · show pyRound1 (similarity_score_raw p []) = 0
      rw [hsim, pyRound1_zero]
    · show pyRound1 (keyword_score_raw p [] * (7 / 10) + similarity_score_raw p [] * (3 / 10)) = 0
      rw [hraw, hsim]
      norm_num [pyRound1_zero]
    · show (extract_keywords_from_project p).filter
        (fun k => strContains (lowerStr []) k) = []
      refine List.filter_eq_nil_iff.mpr ?_
      intro k hk
      have : strContains (lowerStr []) k = false := strContains_nil_of_ne (hkeys k hk)
      simpa using this
  · show format_score 85 = 85
    exact format_score_eval (by norm_num) (by norm_num) (by norm_num) (by norm_num)

/-- Witness for C9 at a concrete project with nonempty tech-stack entries. -/
theorem C9_empty_input_witness :
    (score_project_for_job witProjectC9 []).keyword_score = 0 ∧
    (score_project_for_job witProjectC9 []).similarity_score = 0 ∧
    (score_project_for_job witProjectC9 []).overall_score = 0 ∧
    (score_project_for_job witProjectC9 []).matched_keywords = [] :=
  C9_empty_input_amended.2.1 witProjectC9 (by decide)

/-- Dropping the defensive `min(100, ...)`: when the numerator is at most the
raw denominator, the clamped ratio equals the plain ratio. -/
theorem min100_frac_eq {c K : ℕ} (h : c ≤ K) :
    min (100 : ℚ) (((c : ℕ) : ℚ) / ((max K 1 : ℕ) : ℚ) * 100) =
      100 * ((c : ℕ) : ℚ) / ((max 1 K : ℕ) : ℚ) := by
  have hpos : (0 : ℚ) < ((max K 1 : ℕ) : ℚ) := by
    have : (1 : ℕ) ≤ max K 1 := le_max_right K 1
    exact_mod_cast Nat.lt_of_lt_of_le Nat.zero_lt_one this
  have hle : ((c : ℕ) : ℚ) ≤ ((max K 1 : ℕ) : ℚ) := by
    exact_mod_cast le_trans h (le_max_left K 1)
  have h1 : ((c : ℕ) : ℚ) / ((max K 1 : ℕ) : ℚ) ≤ 1 := (div_le_one hpos).mpr hle
  have hx : ((c : ℕ) : ℚ) / ((max K 1 : ℕ) : ℚ) * 100 ≤ 100 := by
    calc ((c : ℕ) : ℚ) / ((max K 1 : ℕ) : ℚ) * 100 ≤ 1 * 100 :=
          mul_le_mul_of_nonneg_right h1 (by norm_num)
      _ = 100 := by norm_num
  rw [min_eq_right hx, max_comm K 1]
  ring

/-- C2 counterexample: the returned score fields are rounded to one decimal,
and the word sets use `\w+` tokens, not alphabetic words.  For the fixture
project against `"aaa 123 zzz"`: the returned `keyword_score` is `33.3`,
not the claim's exact `100/3`; and the returned `similarity_score` is `33.3`
(the code counts the token `123` in `job_words`), while the claim's
alphabetic-word formula gives `50`. -/
theorem C2_scorer_counterexample :
    (score_project_for_job wwProject (str "aaa 123 zzz")).keyword_score = 333 / 10
    ∧ spec_keyword_score wwProject (str "aaa 123 zzz") = 100 / 3
    ∧ ((333 : ℚ) / 10 ≠ 100 / 3)
    ∧ (score_project_for_job wwProject (str "aaa 123 zzz")).similarity_score = 333 / 10
    ∧ spec_similarity_score wwProject (str "aaa 123 zzz") = 50
    ∧ ((333 : ℚ) / 10 ≠ 50) := by
  have h1 : keyword_matches wwProject (str "aaa 123 zzz") = 1 := by decide
  have h2 : (extract_keywords_from_project wwProject).length = 3 := by decide
  have h3 : (common_words wwProject (str "aaa 123 zzz")).length = 1 := by decide
  have h4 : (job_words (str "aaa 123 zzz")).length = 3 := by decide
  have hkraw : keyword_score_raw wwProject (str "aaa 123 zzz") = 100 / 3 := by
    rw [keyword_score_raw, h1, h2]
    norm_num [min_def]
  have hsraw : similarity_score_raw wwProject (str "aaa 123 zzz") = 100 / 3 := by
    rw [similarity_score_raw, h3, h4]
    norm_num [min_def]
  have hround : pyRound1 (100 / 3) = 333 / 10 := by
    rw [@pyRound1_eval (100 / 3) 333 (by norm_num) (by norm_num)]
    norm_num
  refine ⟨?_, ?_, by norm_num, ?_, ?_, by norm_num⟩
  · show pyRound1 (keyword_score_raw wwProject (str "aaa 123 zzz")) = 333 / 10
    rw [hkraw, hround]
  · rw [spec_keyword_score, h1, h2]
    norm_num
  · show pyRound1 (similarity_score_raw wwProject (str "aaa 123 zzz")) = 333 / 10
    rw [hsraw, hround]
  · have hj : (spec_alpha_words (str "aaa 123 zzz")).card = 2 := by decide
    have hi : (spec_alpha_words (str "aaa 123 zzz") ∩
        spec_alpha_words (wwProject.name ++ ' ' :: get_full_description wwProject)).card = 1 := by
      decide
    rw [spec_similarity_score, hj, hi]
    norm_num

/-- C2 (amended): the returned fields satisfy the claim's formulas with two
repairs forced by the counterexample: word sets are `\w+` token sets (digits
and underscores incl.), and each returned field is the one-decimal rounding of
its formula, the overall score being computed from the unrounded
sub-scores.  The defensive `min(100, ...)` clamps are provably redundant. -/
theorem C2_scorer_amended (p : ParsedProject) (jd : Str) :
    (score_project_for_job p jd).keyword_score =
      pyRound1 (100 * (((extract_keywords_from_project p).filter
          (fun k => strContains (lowerStr jd) k)).length : ℕ) /
        ((max 1 (extract_keywords_from_project p).length : ℕ) : ℚ))
    ∧ (score_project_for_job p jd).similarity_score =
      pyRound1 (100 * (((runsBy isWordChar (lowerStr jd)).toFinset ∩
          (runsBy isWordChar (project_text p)).toFinset).card : ℕ) /
        ((max 1 (runsBy isWordChar (lowerStr jd)).toFinset.card : ℕ) : ℚ))
    ∧ (score_project_for_job p jd).overall_score =
      pyRound1 ((100 * (((extract_keywords_from_project p).filter
            (fun k => strContains (lowerStr jd) k)).length : ℕ) /
          ((max 1 (extract_keywords_from_project p).length : ℕ) : ℚ)) * (7 / 10) +
        (100 * (((runsBy isWordChar (lowerStr jd)).toFinset ∩
            (runsBy isWordChar (project_text p)).toFinset).card : ℕ) /
          ((max 1 (runsBy isWordChar (lowerStr jd)).toFinset.card : ℕ) : ℚ)) * (3 / 10)) := by
  have hc : keyword_matches p jd =
      ((extract_keywords_from_project p).filter
        (fun k => strContains (lowerStr jd) k)).length := by
    rw [keyword_matches, List.countP_eq_length_filter]
  have hk : keyword_score_raw p jd =
      100 * (((extract_keywords_from_project p).filter
          (fun k => strContains (lowerStr jd) k)).length : ℕ) /
        ((max 1 (extract_keywords_from_project p).length : ℕ) : ℚ) := by
    rw [keyword_score_raw, hc]
    exact min100_frac_eq (List.length_filter_le _ _)
  have hcommon : (common_words p jd).length =
      ((runsBy isWordChar (lowerStr jd)).toFinset ∩
        (runsBy isWordChar (project_text p)).toFinset).card :=
    filter_mem_length_eq_inter_card _ _
  have hjw : (job_words jd).length = (runsBy isWordChar (lowerStr jd)).toFinset.card :=
    pyDedup_length_eq_card _
  have hs : similarity_score_raw p jd =
      100 * (((runsBy isWordChar (lowerStr jd)).toFinset ∩
          (runsBy isWordChar (project_text p)).toFinset).card : ℕ) /
        ((max 1 (runsBy isWordChar (lowerStr jd)).toFinset.card : ℕ) : ℚ) := by
    rw [similarity_score_raw, hcommon, hjw]
    exact min100_frac_eq (Finset.card_le_card Finset.inter_subset_left)
  exact ⟨by rw [← hk]; rfl, by rw [← hs]; rfl, by rw [← hk, ← hs]; rfl⟩

/-- C5 counterexample: the `app.py` gap analyzer builds
`list(set(job_keywords) - set(project_keywords))`, so the extraction order is
NOT preserved: with job keywords `[alpha, beta]`, nothing covered, the set may
enumerate as `[beta, alpha]`, and the reported list is then `[beta, alpha]`
while the claim requires `[alpha, beta]`. -/
theorem C5_missing_order_counterexample :
    AdmissibleDiff [str "alpha", str "beta"] [] [str "beta", str "alpha"]
    ∧ (app_missing_keywords [str "alpha", str "beta"]
        [str "beta", str "alpha"]).map MissingKeyword.keyword = [str "beta", str "alpha"]
    ∧ (spec_missing [str "alpha", str "beta"] [] 10).map MissingKeyword.keyword =
        [str "alpha", str "beta"]
    ∧ ([str "beta", str "alpha"] : List Str) ≠ [str "alpha", str "beta"] := by
  refine ⟨?_, by decide, by decide, by decide⟩
  show ((pyDedup [str "alpha", str "beta"]).filter _).Perm [str "beta", str "alpha"]
  have h : ((pyDedup [str "alpha", str "beta"]).filter
      (fun k => decide (k ∉ ([] : List Str)))) = [str "alpha", str "beta"] := by decide
  rw [h]
  exact List.Perm.swap _ _ _

/-- C5 (amended): the `analyzer.py` path satisfies the claim exactly with cap
15 — order-preserving filter of the job keywords, importance `high` iff the
keyword's first index in the job-keyword list is below 5.  The `app.py` path
keeps the membership, cap-10 and importance properties, but reports the set
difference in an unspecified enumeration order rather than extraction order. -/
theorem C5_missing_keywords_amended :
    (∀ (jobKeywords covered : List Str),
      analyzer_missing_keywords jobKeywords covered = spec_missing jobKeywords covered 15)
    ∧ (∀ (jobKeywords covered enum : List Str), AdmissibleDiff jobKeywords covered enum →
      (app_missing_keywords jobKeywords enum).map MissingKeyword.keyword = enum.take 10
      ∧ ∀ m ∈ app_missing_keywords jobKeywords enum,
          m.keyword ∈ jobKeywords ∧ m.keyword ∉ covered ∧
          m.category = str "Technical" ∧
          m.importance = (if firstIdx m.keyword jobKeywords < 5 then str "high"
            else str "medium")) := by
  constructor
  · intro jk cov
    rw [analyzer_missing_keywords, spec_missing]
    refine List.map_congr_left ?_
    intro kw hkw
    have hkjk : kw ∈ jk := (List.mem_filter.mp (List.mem_of_mem_take hkw)).1
    have hiff := mem_take_iff_firstIdx_lt hkjk 5
    rw [mkMissing]
    by_cases hc : firstIdx kw jk < 5
    · rw [if_pos (hiff.mpr hc), if_pos hc]
    · rw [if_neg (fun hmem => hc (hiff.mp hmem)), if_neg hc]
  · intro jk cov enum hadm
    constructor
    · rw [app_missing_keywords, List.map_map]
      have hcomp : (MissingKeyword.keyword ∘ mkMissing jk) = fun kw => kw := by
        funext kw
        rfl
      rw [hcomp, List.map_id']
    · intro m hm
      obtain ⟨kw, hkw, rfl⟩ := List.mem_map.mp hm
      have hkenum : kw ∈ enum := List.mem_of_mem_take hkw
      have hkfil := hadm.mem_iff.mpr hkenum
      have hkjk : kw ∈ jk := mem_pyDedup.mp (List.mem_filter.mp hkfil).1
      have hkcov : kw ∉ cov := by
        have := (List.mem_filter.mp hkfil).2
        simpa using this
      refine ⟨hkjk, hkcov, rfl, ?_⟩
      have hiff := mem_take_iff_firstIdx_lt hkjk 5
      show (if kw ∈ jk.take 5 then str "high" else str "medium") =
        (if firstIdx kw jk < 5 then str "high" else str "medium")
      by_cases hc : firstIdx kw jk < 5
      · rw [if_pos (hiff.mpr hc), if_pos hc]
      · rw [if_neg (fun hmem => hc (hiff.mp hmem)), if_neg hc]

/-- Witness for C5 at concrete inputs on the app path. -/
theorem C5_missing_keywords_witness :
    (app_missing_keywords [str "alpha"] [str "alpha"]).map MissingKeyword.keyword =
      ([str "alpha"] : List Str).take 10
    ∧ ∀ m ∈ app_missing_keywords [str "alpha"] [str "alpha"],
        m.keyword ∈ [str "alpha"] ∧ m.keyword ∉ ([str "zzz"] : List Str) ∧
        m.category = str "Technical" ∧
        m.importance = (if firstIdx m.keyword [str "alpha"] < 5 then str "high"
          else str "medium") :=
  C5_missing_keywords_amended.2 [str "alpha"] [str "zzz"] [str "alpha"]
    (by
      show ((pyDedup [str "alpha"]).filter _).Perm [str "alpha"]
      have h : ((pyDedup [str "alpha"]).filter
          (fun k => decide (k ∉ ([str "zzz"] : List Str)))) = [str "alpha"] := by decide
      rw [h])

/-- C8: `extract_keywords_from_text` is total by construction (it is a plain
function into `List Str`; the source wraps the whole NLTK/TF-IDF path in
`try/except`), and whenever the internal tokenizer/lemmatizer path fails —
for every environment behaviour making any stage raise — it returns exactly
the result of the simpler `_simple_keyword_extraction` fallback. -/
theorem C8_extract_fallback (env : NltkEnv) (techEnum : List Str) (text : Str)
    (mk : ℕ) (h : mainPath env techEnum text mk = none) :
    extract_keywords_from_text env techEnum text mk =
      simple_keyword_extraction text mk := by
  rw [extract_keywords_from_text]
  by_cases he : text.isEmpty
  · rw [if_pos he]
    have htext : text = [] := by simpa [List.isEmpty_iff] using he
    rw [htext, simple_keyword_extraction_nil]
  · rw [if_neg he, h]

/-- Witness for C8: with every external call failing, extraction falls back. -/
theorem C8_extract_fallback_witness :
    extract_keywords_from_text envFail [] (str "xyz abc") 25 =
      simple_keyword_extraction (str "xyz abc") 25 :=
  C8_extract_fallback envFail [] (str "xyz abc") 25 rfl

/-- C7 (amended): on the main path (all external stages succeed and at least
5 filtered tokens survive), for EVERY enumeration `techEnum` the technical
keyword set may produce, the extracted list is the combination loop's output:
it begins with `techEnum` (truncated at `max_keywords`) — the technical terms
deduplicated, in the unspecified set-enumeration order, NOT in first-seen
order — followed by positively-scored TF-IDF terms in rank order, has no
duplicate and at most `max_keywords` entries.  For fewer than 5 filtered
tokens the lemmatized token list is returned as-is, with no technical-term
promotion and no cap. -/
theorem C7_extract_order_amended :
    (∀ (env : NltkEnv) (techEnum : List Str) (text : Str) (mk : ℕ)
      (sw : List Str) (tokens lemmatized : List Str) (scores : List (Str × ℚ)),
      AdmissibleTech techEnum text →
      text ≠ [] →
      env.stopwordsEnglish = some sw →
      env.wordTokenize (lowerStr text) = some tokens →
      (tokens.filter (fun t =>
        isalphaStr t && decide (2 < t.length) &&
          !(decide (t ∈ sw) || decide (t ∈ domainStopwords)))).mapM env.lemmatize =
        some lemmatized →
      ¬ lemmatized.length < 5 →
      env.tfidfScores (joinSpace lemmatized) mk = some scores →
      extract_keywords_from_text env techEnum text mk =
        combineKeywords techEnum (sortDesc (fun pr => pr.2) scores) mk
      ∧ (extract_keywords_from_text env techEnum text mk).take (min mk techEnum.length) =
          techEnum.take (min mk techEnum.length)
      ∧ (extract_keywords_from_text env techEnum text mk).Nodup
      ∧ (extract_keywords_from_text env techEnum text mk).length ≤ mk
      ∧ List.Sublist ((extract_keywords_from_text env techEnum text mk).drop techEnum.length)
          (((sortDesc (fun pr => pr.2) scores).filter
            (fun pr => decide (0 < pr.2))).map Prod.fst))
    ∧ (∀ (env : NltkEnv) (techEnum : List Str) (text : Str) (mk : ℕ)
      (sw : List Str) (tokens lemmatized : List Str),
      text ≠ [] →
      env.stopwordsEnglish = some sw →
      env.wordTokenize (lowerStr text) = some tokens →
      (tokens.filter (fun t =>
        isalphaStr t && decide (2 < t.length) &&
          !(decide (t ∈ sw) || decide (t ∈ domainStopwords)))).mapM env.lemmatize =
        some lemmatized →
      lemmatized.length < 5 →
      extract_keywords_from_text env techEnum text mk = lemmatized) := by
  constructor
  · intro env techEnum text mk sw tokens lemmatized scores hadm htext hsw htok hlem h5 htf
    have hemp : text.isEmpty = false := by simpa [List.isEmpty_iff] using htext
    have hmain : mainPath env techEnum text mk =
        some (combineKeywords techEnum (sortDesc (fun pr => pr.2) scores) mk) := by
      simp only [mainPath, hsw, htok, hlem, htf, if_neg h5]
    have hr : extract_keywords_from_text env techEnum text mk =
        combineKeywords techEnum (sortDesc (fun pr => pr.2) scores) mk := by
      rw [extract_keywords_from_text, hemp, hmain]
      rfl
    have hndcanon : (techMatchesUtils text).Nodup :=
      List.Nodup.filter _ utilsTechTerms_nodup
    have hnd : techEnum.Nodup := hadm.nodup hndcanon
    have hpd : pyDedup techEnum = techEnum := pyDedup_eq_self hnd
    obtain ⟨ex, heq, hsub, hnodup⟩ :=
      fillLoop_spec mk (sortDesc (fun pr => pr.2) scores) techEnum
    have hcomb : combineKeywords techEnum (sortDesc (fun pr => pr.2) scores) mk =
        (techEnum ++ ex).take mk := by
      rw [combineKeywords, hpd, heq]
    refine ⟨hr, ?_, ?_, ?_, ?_⟩
    · rw [hr, hcomb, List.take_take, min_eq_left (min_le_left _ _),
        List.take_append_of_le_length (min_le_right _ _)]
    · rw [hr, hcomb]
      exact (hnodup hnd).sublist (List.take_sublist _ _)
    · rw [hr, hcomb]
      have := List.length_take mk (techEnum ++ ex)
      omega
    · rw [hr, hcomb]
      have h1 : List.Sublist (((techEnum ++ ex).take mk).drop techEnum.length)
          ((techEnum ++ ex).drop techEnum.length) :=
        List.Sublist.drop (List.take_sublist mk (techEnum ++ ex)) techEnum.length
      rw [List.drop_left] at h1
      exact h1.trans hsub
  · intro env techEnum text mk sw tokens lemmatized htext hsw htok hlem h5
    have hemp : text.isEmpty = false := by simpa [List.isEmpty_iff] using htext
    have hmain : mainPath env techEnum text mk = some lemmatized := by
      simp only [mainPath, hsw, htok, hlem, if_pos h5]
    rw [extract_keywords_from_text, hemp, hmain]
    rfl

/-- C7 counterexample.  First part: two admissible enumerations of the same
technical-match set give two different extraction outputs for the same text,
so no fixed "first-seen" order can be the output order — the source's
`list(set(tech_keywords))` discards the discovery order.  Second part: on a
short text ("go api", fewer than 5 filtered tokens), the matched technical
term `go` does not appear in the output at all, although the claim requires
every text's output to begin with the technical matches. -/
theorem C7_extract_order_counterexample :
    AdmissibleTech [str "python", str "docker"] ceText1
    ∧ AdmissibleTech [str "docker", str "python"] ceText1
    ∧ extract_keywords_from_text ceEnv [str "python", str "docker"] ceText1 25 =
        [str "python", str "docker"]
    ∧ extract_keywords_from_text ceEnv [str "docker", str "python"] ceText1 25 =
        [str "docker", str "python"]
    ∧ ([str "python", str "docker"] : List Str) ≠ [str "docker", str "python"]
    ∧ occursWB (str "go") (lowerStr (str "go api")) = true
    ∧ AdmissibleTech [str "go", str "api"] (str "go api")
    ∧ extract_keywords_from_text ceEnv [str "go", str "api"] (str "go api") 25 =
        [str "api"]
    ∧ str "go" ∉ extract_keywords_from_text ceEnv [str "go", str "api"] (str "go api") 25 := by
  have hcanon : techMatchesUtils ceText1 = [str "python", str "docker"] := by decide
  have hcanon2 : techMatchesUtils (str "go api") = [str "go", str "api"] := by decide
  refine ⟨?_, ?_, by decide, by decide, by decide, by decide, ?_, by decide, by decide⟩
  · show (techMatchesUtils ceText1).Perm [str "python", str "docker"]
    rw [hcanon]
  · show (techMatchesUtils ceText1).Perm [str "docker", str "python"]
    rw [hcanon]
    exact List.Perm.swap _ _ _
  · show (techMatchesUtils (str "go api")).Perm [str "go", str "api"]
    rw [hcanon2]

/-- Witness for C7 on the main path at a concrete environment and text. -/
theorem C7_extract_order_witness :
    extract_keywords_from_text ceEnv [str "python", str "docker"] ceText1 25 =
      combineKeywords [str "python", str "docker"] (sortDesc (fun pr => pr.2) []) 25
    ∧ (extract_keywords_from_text ceEnv [str "python", str "docker"] ceText1 25).take
        (min 25 ([str "python", str "docker"] : List Str).length) =
        ([str "python", str "docker"] : List Str).take
          (min 25 ([str "python", str "docker"] : List Str).length)
    ∧ (extract_keywords_from_text ceEnv [str "python", str "docker"] ceText1 25).Nodup
    ∧ (extract_keywords_from_text ceEnv [str "python", str "docker"] ceText1 25).length ≤ 25
    ∧ List.Sublist ((extract_keywords_from_text ceEnv [str "python", str "docker"] ceText1
        25).drop ([str "python", str "docker"] : List Str).length)
        (((sortDesc (fun pr => pr.2) ([] : List (Str × ℚ))).filter
          (fun pr => decide (0 < pr.2))).map Prod.fst) :=
  C7_extract_order_amended.1 ceEnv [str "python", str "docker"] ceText1 25 []
    [str "docker", str "python", str "alpha", str "beta", str "gamma", str "delta"]
    [str "docker", str "python", str "alpha", str "beta", str "gamma", str "delta"] []
    (by
      show (techMatchesUtils ceText1).Perm [str "python", str "docker"]
      have hcanon : techMatchesUtils ceText1 = [str "python", str "docker"] := by decide
      rw [hcanon])
    (by decide) rfl (by decide) (by decide) (by decide) rfl

end AlignAI

